import Mathlib

/-!
Verification of the `dirplay` audio playback engine against its specification.

The definitions below are a shallow embedding of the Go sources:
* `AudioPlayer` and its methods embed the `AudioPlayer` struct and methods of
  the player source file (`CompletionStreamer`, `LoadTrack`, `Play`, `Pause`,
  `Resume`, `Stop`, `Close`, `GetPosition`, `Seek`, `IsPaused`, `HasEnded`).
* `shufflePlaylist` embeds `shuffle.go`.

Conventions of the embedding:
* Go `time.Duration` and `time.Time` values are embedded as `Int`
  (nanosecond counts).  Every method that reads the wall clock
  (`time.Now()` / `time.Since(x) = now - x`) takes the current instant `t`
  as an explicit argument.  Realistic magnitudes stay far below 2^63, so
  int64 overflow is not modelled.
* The beep decoder stream (`beep.StreamSeekCloser`) is embedded as
  `BeepStreamer`, carrying its frame count `len` (`Len()`) and current frame
  position `pos`.  Its `Seek(p)` follows the `beep.StreamSeeker` contract:
  it succeeds exactly when `0 ≤ p ≤ Len()` and errors otherwise (this is the
  check performed by the beep mp3/wav/flac/vorbis decoders).
* The speaker (`speaker.Init`, `speaker.Play`, `speaker.Clear`,
  `speaker.Lock`) is a process-wide effect; the calls to `speaker.Init` are
  recorded in the ghost field `initCalls` so that device-initialisation
  claims can be stated.  Locking and sleeping have no observable effect in
  a sequential interleaving model and are not represented.
* Methods returning a Go `error` return `Option String × AudioPlayer`
  (`none` = nil error), with the message text of the source.
-/

/-- ASCII lower-casing of one character, as `strings.ToLower` acts on the
ASCII-only extension strings fed to it in `LoadTrack`. -/
def lowerChar (c : Char) : Char :=
  if 'A' ≤ c ∧ c ≤ 'Z' then Char.ofNat (c.toNat + 32) else c

/-- Go `strings.ToLower` on the strings this program feeds it (ASCII). -/
def goToLower (s : String) : String :=
  String.mk (s.data.map lowerChar)

/-- Go `filepath.Base` (slash-separated paths): last element of the path
after trailing slashes are removed; `"."` for the empty path, `"/"` when the
path is all slashes. -/
def goFilepathBase (s : String) : String :=
  let rev := s.data.reverse
  let rev1 := rev.dropWhile (fun c => c = '/')
  if rev.isEmpty then "."
  else if rev1.isEmpty then "/"
  else String.mk ((rev1.takeWhile (fun c => c ≠ '/')).reverse)

/-- Helper for `goFilepathExt`: walks the reversed character list; returns
the suffix starting at the final dot of the final path element, if any. -/
def extAux : List Char → List Char → Option (List Char)
  | [], _ => none
  | c :: rest, acc =>
    if c = '/' then none
    else if c = '.' then some (c :: acc)
    else extAux rest (c :: acc)

/-- Go `filepath.Ext`: the suffix beginning at the final dot in the final
element of the path, empty if there is none. -/
def goFilepathExt (s : String) : String :=
  match extAux s.data.reverse [] with
  | some l => String.mk l
  | none => ""

/-- Embeds `beep.SampleRate.N(d)`: number of frames in duration `d`
(`int(d * time.Duration(sr) / time.Second)`, Go division truncates). -/
def beepN (sr : Int) (d : Int) : Int :=
  Int.tdiv (d * sr) (10 ^ 9)

/-- Embeds `beep.SampleRate.D(n)`: duration of `n` frames
(`time.Second * time.Duration(n) / time.Duration(sr)`, truncating). -/
def beepD (sr : Int) (n : Int) : Int :=
  Int.tdiv ((10 ^ 9) * n) sr

/-- The decoder stream handle (`beep.StreamSeekCloser`): total frame count
(`Len()`) and current frame position. -/
structure BeepStreamer where
  len : Int
  pos : Int
  deriving DecidableEq, Repr

/-- Embeds `beep.Ctrl`: the pause/resume wrapper handed to the speaker. -/
structure Ctrl where
  paused : Bool
  deriving DecidableEq, Repr

/-- Embeds `CompletionStreamer`: wraps a streamer to detect when it completes; the
`completed` flag is latched by the render thread on end-of-stream. -/
structure CompletionStreamer where
  completed : Bool
  deriving DecidableEq, Repr

/-- The `AudioPlayer` struct.  `fileOpen` models whether `ap.file` holds an
open file; `sampleRate` is the used part of `ap.format`; `initCalls` is a
ghost log of the `speaker.Init(rate, bufferFrames)` calls made so far. -/
structure AudioPlayer where
  streamer : Option BeepStreamer
  ctrl : Option Ctrl
  sampleRate : Int
  playing : Bool
  fileOpen : Bool
  duration : Int
  currentPos : Int
  artist : String
  title : String
  album : String
  startTime : Int
  hasEnded : Bool
  completionStream : Option CompletionStreamer
  speakerInitialized : Bool
  initCalls : List (Int × Int)
  deriving DecidableEq, Repr

/-- Embeds `NewAudioPlayer()`: the zero value of the struct. -/
def newAudioPlayer : AudioPlayer :=
  { streamer := none
    ctrl := none
    sampleRate := 0
    playing := false
    fileOpen := false
    duration := 0
    currentPos := 0
    artist := ""
    title := ""
    album := ""
    startTime := 0
    hasEnded := false
    completionStream := none
    speakerInitialized := false
    initCalls := [] }

/-- Embeds `IsPaused()`: `ap.ctrl != nil && ap.ctrl.Paused` (read under the
speaker lock). -/
def AudioPlayer.IsPaused (ap : AudioPlayer) : Bool :=
  match ap.ctrl with
  | some c => c.paused
  | none => false

/-- Embeds `GetPosition()` at wall-clock instant `t`: paused → stored position;
stopped → stored position; otherwise stored position plus elapsed time,
capped at the duration. -/
def AudioPlayer.GetPosition (ap : AudioPlayer) (t : Int) : Int :=
  if ap.IsPaused then ap.currentPos
  else if !ap.playing then ap.currentPos
  else
    let elapsed := t - ap.startTime
    let pos := ap.currentPos + elapsed
    if pos > ap.duration then ap.duration else pos

/-- Embeds `Play()` at instant `t`: errors when no streamer is loaded; no-op when
already playing; otherwise installs a fresh completion wrapper and `Ctrl`,
anchors `startTime`, resets `currentPos`, and starts the speaker. -/
def AudioPlayer.Play (ap : AudioPlayer) (t : Int) : Option String × AudioPlayer :=
  if ap.streamer.isNone then (some "no track loaded", ap)
  else if ap.playing then (none, ap)
  else
    (none,
      { ap with
          completionStream := some { completed := false }
          ctrl := some { paused := false }
          startTime := t
          currentPos := 0
          playing := true })

/-- Embeds `Pause()` at instant `t`: when `ap.ctrl != nil && ap.playing`, sets the
ctrl paused and adds `time.Since(ap.startTime)` to `currentPos`. -/
def AudioPlayer.Pause (ap : AudioPlayer) (t : Int) : AudioPlayer :=
  if ap.ctrl.isSome && ap.playing then
    { ap with
        ctrl := some { paused := true }
        currentPos := ap.currentPos + (t - ap.startTime) }
  else ap

/-- Embeds `Resume()` at instant `t`: when `ap.ctrl != nil && ap.playing`, clears
the ctrl paused flag and re-anchors `startTime` to now. -/
def AudioPlayer.Resume (ap : AudioPlayer) (t : Int) : AudioPlayer :=
  if ap.ctrl.isSome && ap.playing then
    { ap with
        ctrl := some { paused := false }
        startTime := t }
  else ap

/-- Embeds `Stop()` at instant `t`: when playing, clears `playing`/`hasEnded` and
(when not paused) refreshes `currentPos` from `GetPosition` — note the Go
code sets `ap.playing = false` first, so that `GetPosition` call returns
`ap.currentPos` unchanged; then unconditionally closes and drops the
streamer, the file, the ctrl and the completion wrapper. -/
def AudioPlayer.Stop (ap : AudioPlayer) (t : Int) : AudioPlayer :=
  let ap1 :=
    if ap.playing then
      let ap0 := { ap with playing := false, hasEnded := false }
      if ap0.ctrl.isSome && !ap0.IsPaused then
        { ap0 with currentPos := ap0.GetPosition t }
      else ap0
    else ap
  { ap1 with streamer := none, fileOpen := false, ctrl := none, completionStream := none }

/-- Embeds `Close()` at instant `t`: `Stop` then reset the speaker-initialisation
flag ("if needed for restart"). -/
def AudioPlayer.Close (ap : AudioPlayer) (t : Int) : AudioPlayer :=
  { ap.Stop t with speakerInitialized := false }

/-- Embeds `Seek(pos)`: errors when no streamer is loaded; converts `pos` to a
frame index with `format.SampleRate.N`; forwards it to the stream (which,
per the `beep.StreamSeeker` contract, rejects indices outside
`[0, Len()]`); on success stores `currentPos = pos`. -/
def AudioPlayer.Seek (ap : AudioPlayer) (pos : Int) : Option String × AudioPlayer :=
  match ap.streamer with
  | none => (some "no track loaded", ap)
  | some st =>
    let samples := beepN ap.sampleRate pos
    if samples < 0 ∨ st.len < samples then (some "failed to seek", ap)
    else (none, { ap with streamer := some { st with pos := samples }, currentPos := pos })

/-- Embeds `HasEnded()` at instant `t`: returns the Go result together with the
updated receiver (the method latches `ap.hasEnded` on the two early-true
paths). -/
def AudioPlayer.HasEnded (ap : AudioPlayer) (t : Int) : Bool × AudioPlayer :=
  if ap.duration == 0 || !ap.playing then (false, ap)
  else if (match ap.completionStream with | some cs => cs.completed | none => false) then
    (true, { ap with hasEnded := true })
  else if ap.GetPosition t ≥ ap.duration then (true, { ap with hasEnded := true })
  else (ap.hasEnded, ap)

/-- The render thread observing end-of-stream: the speaker pulls from the
attached `Ctrl` only between `Play` and `Stop` and only while not paused;
when the wrapped stream is exhausted the `CompletionStreamer` latches its
`completed` flag. -/
def AudioPlayer.completeStream (ap : AudioPlayer) : AudioPlayer :=
  if ap.playing && !ap.IsPaused && ap.completionStream.isSome then
    { ap with completionStream := some { completed := true } }
  else ap

/-- Outcomes of the external effects performed by one `LoadTrack` call:
whether `os.Open` succeeds, the tag-read result (`some (artist, title,
album)` on success, `none` on `tag.ReadFrom` failure), whether the
`file.Seek(0, 0)` rewind succeeds, whether the codec decode succeeds and —
when it does — the decoded stream's frame count (`streamer.Len()`) and
sample rate, and whether `speaker.Init` succeeds. -/
structure LoadEnv where
  openOk : Bool
  tags : Option (String × String × String)
  fileSeekOk : Bool
  decodeOk : Bool
  streamLen : Int
  rate : Int
  initOk : Bool
  deriving DecidableEq, Repr

/-- Supported-extension test of the `LoadTrack` switch. -/
def supportedExt (ext : String) : Bool :=
  ext == ".mp3" || ext == ".wav" || ext == ".flac" || ext == ".ogg"

/-- Embeds `LoadTrack(filePath)` at instant `t`, with the external outcomes `env`:
stops current playback, opens the file, reads tags (falling back to
`filepath.Base(filePath)` / `"Unknown Artist"` / `"Unknown Album"` on tag
failure), rewinds the file, decodes by lower-cased extension, computes the
duration, resets `currentPos`, and initialises the speaker once —
`speaker.Init(rate, rate.N(time.Second/10))` — if not already initialised. -/
def AudioPlayer.LoadTrack (ap : AudioPlayer) (t : Int) (filePath : String)
    (env : LoadEnv) : Option String × AudioPlayer :=
  let ap := ap.Stop t
  if !env.openOk then (some "failed to open file", ap)
  else
    let ap := { ap with fileOpen := true }
    let ap :=
      match env.tags with
      | some (a, ti, al) => { ap with artist := a, title := ti, album := al }
      | none =>
        { ap with
            title := goFilepathBase filePath
            artist := "Unknown Artist"
            album := "Unknown Album" }
    if !env.fileSeekOk then (some "failed to seek file", ap)
    else
      let ext := goToLower (goFilepathExt filePath)
      if !supportedExt ext then (some "unsupported audio format", ap)
      else if !env.decodeOk then (some "failed to decode audio", { ap with fileOpen := false })
      else
        let ap :=
          { ap with
              streamer := some { len := env.streamLen, pos := 0 }
              sampleRate := env.rate
              duration := beepD env.rate env.streamLen
              currentPos := 0 }
        if !ap.speakerInitialized then
          if !env.initOk then (some "failed to initialize speaker", ap)
          else
            (none,
              { ap with
                  speakerInitialized := true
                  initCalls := ap.initCalls ++ [(env.rate, beepN env.rate (Int.tdiv (10 ^ 9) 10))] })
        else (none, ap)

/-- One externally observable event of the player's life: an API call (with
the wall-clock instant at which it runs and, for `load`, the outcomes of
its external effects) or the render thread reaching end-of-stream. -/
inductive PlayerEvent where
  | load (t : Int) (filePath : String) (env : LoadEnv)
  | play (t : Int)
  | pause (t : Int)
  | resume (t : Int)
  | stop (t : Int)
  | seek (pos : Int)
  | queryEnded (t : Int)
  | complete
  | close (t : Int)
  deriving DecidableEq, Repr

/-- Events that tear playback down (each runs `Stop`, directly or first
thing): `stop`, `load`, `close`. -/
def PlayerEvent.clearsPlayback : PlayerEvent → Bool
  | .load _ _ _ => true
  | .stop _ => true
  | .close _ => true
  | _ => false

/-- Whether the event is a `Close` call. -/
def PlayerEvent.isClose : PlayerEvent → Bool
  | .close _ => true
  | _ => false

/-- State transition of one event (return values of the fallible calls are
dropped; the state they leave behind is kept). -/
def stepEv (ap : AudioPlayer) : PlayerEvent → AudioPlayer
  | .load t path env => (ap.LoadTrack t path env).2
  | .play t => (ap.Play t).2
  | .pause t => ap.Pause t
  | .resume t => ap.Resume t
  | .stop t => ap.Stop t
  | .seek pos => (ap.Seek pos).2
  | .queryEnded t => (ap.HasEnded t).2
  | .complete => ap.completeStream
  | .close t => ap.Close t

/-- Run a sequence of events. -/
def runEvents (ap : AudioPlayer) (evs : List PlayerEvent) : AudioPlayer :=
  evs.foldl stepEv ap

/-- States the player can actually be in: everything reachable from
`NewAudioPlayer()` by some event sequence. -/
def Reachable (ap : AudioPlayer) : Prop :=
  ∃ evs, runEvents newAudioPlayer evs = ap

/-- Embeds `playlist[i], playlist[j] = playlist[j], playlist[i]` — the slice swap;
identity when an index is out of range (the shuffle only produces in-range
indices). -/
def listSwap (l : List α) (i j : Nat) : List α :=
  match l[i]?, l[j]? with
  | some a, some b => (l.set i b).set j a
  | _, _ => l

/-- The Fisher–Yates loop of `shufflePlaylist`, counting `i` down to `1`;
`js i % (i + 1)` stands for `r.Intn(i + 1)`, the random draw from
`[0, i]` — `js` ranges over all draw sequences the generator can emit. -/
def shuffleAux (js : Nat → Nat) : List α → Nat → List α
  | l, 0 => l
  | l, i + 1 => shuffleAux js (listSwap l (i + 1) (js (i + 1) % (i + 2))) i

/-- Embeds `shufflePlaylist(playlist)` from `shuffle.go`, with the random source
abstracted as the draw sequence `js`. -/
def shufflePlaylist (playlist : List String) (js : Nat → Nat) : List String :=
  shuffleAux js playlist (playlist.length - 1)

/-! ## The session-state abstraction of the spec's state machine -/

/-- The spec's controller states. -/
inductive SessionState where
  | Stopped
  | Playing
  | Paused
  deriving DecidableEq, Repr

/-- The session state the spec's machine associates to a player value:
`Stopped` when the `playing` flag is down, otherwise `Paused`/`Playing`
according to the ctrl's paused flag. -/
def AudioPlayer.sessionState (ap : AudioPlayer) : SessionState :=
  if !ap.playing then .Stopped
  else if ap.IsPaused then .Paused
  else .Playing

/-! ## Concrete test fixtures -/

/-- External outcomes of loading a well-formed 10-second 44.1 kHz track
with readable tags. -/
def env44 : LoadEnv :=
  { openOk := true
    tags := some ("Artist", "Title", "Album")
    fileSeekOk := true
    decodeOk := true
    streamLen := 441000
    rate := 44100
    initOk := true }

/-- Same track without readable tags. -/
def env44NoTags : LoadEnv :=
  { env44 with tags := none }

/-- External outcomes of loading a 10-second 48 kHz track. -/
def env48 : LoadEnv :=
  { env44 with streamLen := 480000, rate := 48000 }

/-- The player right after `LoadTrack` of the 10-second track at instant 0
followed by `Play()` at instant 0: playing, not paused, anchored at 0,
`duration = 10 s`, `currentPos = 0`. -/
def playingAt0 : AudioPlayer :=
  runEvents newAudioPlayer [.load 0 "music/song.mp3" env44, .play 0]

/-- The spec's described title fallback ("filename with the extension
stripped"): `filepath.Base` minus its `filepath.Ext` suffix.  Stated from
the spec's words, for comparison with what the code computes. -/
def specTitleFallback (path : String) : String :=
  let b := goFilepathBase path
  let e := goFilepathExt b
  String.mk (b.data.take (b.data.length - e.data.length))

/-- A pause or resume call with its wall-clock instant. -/
inductive PREvent where
  | pause (t : Int)
  | resume (t : Int)
  deriving DecidableEq, Repr

/-- The instant at which the call is made. -/
def PREvent.time : PREvent → Int
  | .pause t => t
  | .resume t => t

/-- Apply one pause/resume call. -/
def applyPR (ap : AudioPlayer) : PREvent → AudioPlayer
  | .pause t => ap.Pause t
  | .resume t => ap.Resume t

/-- Apply a sequence of pause/resume calls. -/
def runPR (ap : AudioPlayer) (evs : List PREvent) : AudioPlayer :=
  evs.foldl applyPR ap

/-- The call instants are non-decreasing from `t1` to `t2`. -/
def timesChain (t1 : Int) : List PREvent → Int → Bool
  | [], t2 => decide (t1 ≤ t2)
  | e :: rest, t2 => decide (t1 ≤ e.time) && timesChain e.time rest t2

/-- The calls are proper state transitions: each `Pause` happens while not
paused and each `Resume` happens while paused. -/
def validPR : AudioPlayer → List PREvent → Bool
  | _, [] => true
  | ap, e :: rest =>
    (match e with
      | .pause _ => !ap.IsPaused
      | .resume _ => ap.IsPaused) && validPR (applyPR ap e) rest

/-- Potential used in the monotonicity proof: the clamped position a
playing session will never again fall below. -/
def phiPos (ap : AudioPlayer) (t : Int) : Int :=
  if ap.IsPaused then min ap.currentPos ap.duration
  else min (ap.currentPos + (t - ap.startTime)) ap.duration

theorem stop_playing_eq (ap : AudioPlayer) (t : Int) : (ap.Stop t).playing = false := by
  simp only [AudioPlayer.Stop]
  split_ifs <;> simp_all

theorem stop_streamer_eq (ap : AudioPlayer) (t : Int) : (ap.Stop t).streamer = none := by
  simp only [AudioPlayer.Stop]

theorem stop_speaker_eq (ap : AudioPlayer) (t : Int) :
    (ap.Stop t).speakerInitialized = ap.speakerInitialized ∧
    (ap.Stop t).initCalls = ap.initCalls := by
  simp only [AudioPlayer.Stop]
  split_ifs <;> simp_all

theorem loadTrack_playing_eq (ap : AudioPlayer) (t : Int) (p : String) (env : LoadEnv) :
    (ap.LoadTrack t p env).2.playing = false := by
  have h := stop_playing_eq ap t
  simp only [AudioPlayer.LoadTrack]
  split_ifs <;> (try rcases env.tags with _ | ⟨a, ti, al⟩) <;> simp_all

/-- Bookkeeping of `speaker.Init` across one `LoadTrack` call: either the flag and
the ghost log are untouched, or the flag was clear, gets set, and exactly
one configuration is appended to the log. -/
theorem loadTrack_initCalls (ap : AudioPlayer) (t : Int) (p : String) (env : LoadEnv) :
    ((ap.LoadTrack t p env).2.speakerInitialized = ap.speakerInitialized ∧
      (ap.LoadTrack t p env).2.initCalls = ap.initCalls) ∨
    (ap.speakerInitialized = false ∧
      (ap.LoadTrack t p env).2.speakerInitialized = true ∧
      (ap.LoadTrack t p env).2.initCalls
        = ap.initCalls ++ [(env.rate, beepN env.rate (Int.tdiv (10 ^ 9) 10))]) := by
  have hs := stop_speaker_eq ap t
  simp only [AudioPlayer.LoadTrack]
  rcases htags : env.tags with _ | ⟨a, ti, al⟩ <;> simp only [htags] <;> split_ifs <;> simp_all

theorem pause_fields (ap : AudioPlayer) (t : Int) :
    (ap.Pause t).playing = ap.playing ∧ (ap.Pause t).streamer = ap.streamer ∧
    (ap.Pause t).duration = ap.duration ∧ (ap.Pause t).hasEnded = ap.hasEnded ∧
    (ap.Pause t).speakerInitialized = ap.speakerInitialized ∧
    (ap.Pause t).initCalls = ap.initCalls := by
  simp only [AudioPlayer.Pause]
  split_ifs <;> simp_all

theorem resume_fields (ap : AudioPlayer) (t : Int) :
    (ap.Resume t).playing = ap.playing ∧ (ap.Resume t).streamer = ap.streamer ∧
    (ap.Resume t).duration = ap.duration ∧ (ap.Resume t).hasEnded = ap.hasEnded ∧
    (ap.Resume t).speakerInitialized = ap.speakerInitialized ∧
    (ap.Resume t).initCalls = ap.initCalls := by
  simp only [AudioPlayer.Resume]
  split_ifs <;> simp_all

theorem play_fields (ap : AudioPlayer) (t : Int) :
    ((ap.Play t).2 = ap) ∨
    ((ap.Play t).2.playing = true ∧ (ap.Play t).2.streamer = ap.streamer ∧
      (ap.Play t).2.duration = ap.duration ∧ (ap.Play t).2.hasEnded = ap.hasEnded ∧
      (ap.Play t).2.speakerInitialized = ap.speakerInitialized ∧
      (ap.Play t).2.initCalls = ap.initCalls) := by
  simp only [AudioPlayer.Play]
  split_ifs <;> simp_all

theorem seek_fields (ap : AudioPlayer) (pos : Int) :
    (ap.Seek pos).2.playing = ap.playing ∧
    ((ap.Seek pos).2.streamer.isNone ↔ ap.streamer.isNone) ∧
    (ap.Seek pos).2.duration = ap.duration ∧ (ap.Seek pos).2.hasEnded = ap.hasEnded ∧
    (ap.Seek pos).2.speakerInitialized = ap.speakerInitialized ∧
    (ap.Seek pos).2.initCalls = ap.initCalls := by
  simp only [AudioPlayer.Seek]
  rcases h : ap.streamer with _ | st
  · simp_all
  · simp_all
    split_ifs <;> simp_all

theorem hasEnded_state_fields (ap : AudioPlayer) (t : Int) :
    ((ap.HasEnded t).2.playing = ap.playing ∧ (ap.HasEnded t).2.streamer = ap.streamer ∧
      (ap.HasEnded t).2.duration = ap.duration ∧
      (ap.HasEnded t).2.speakerInitialized = ap.speakerInitialized ∧
      (ap.HasEnded t).2.initCalls = ap.initCalls) ∧
    ((ap.HasEnded t).2.hasEnded = ap.hasEnded ∨ (ap.HasEnded t).2.hasEnded = true) := by
  simp only [AudioPlayer.HasEnded]
  split_ifs <;> simp_all

theorem completeStream_fields (ap : AudioPlayer) :
    ap.completeStream.playing = ap.playing ∧ ap.completeStream.streamer = ap.streamer ∧
    ap.completeStream.duration = ap.duration ∧ ap.completeStream.hasEnded = ap.hasEnded ∧
    ap.completeStream.speakerInitialized = ap.speakerInitialized ∧
    ap.completeStream.initCalls = ap.initCalls := by
  simp only [AudioPlayer.completeStream]
  split_ifs <;> simp_all

/-- C1.  `GetPosition()` returns the clamped wall-clock estimate
`min(currentPos + (now - startTime), duration)` when the session is
`Playing`, and returns `currentPos` unchanged when the session is `Paused`
or `Stopped`. -/
theorem getPosition_state_spec (ap : AudioPlayer) (t : Int) :
    ap.GetPosition t =
      if ap.sessionState = .Playing then
        min (ap.currentPos + (t - ap.startTime)) ap.duration
      else ap.currentPos := by
  simp only [AudioPlayer.GetPosition, AudioPlayer.sessionState]
  split_ifs <;> simp_all
  omega

/-! ## Reachability invariant: no streamer implies not playing -/

theorem stepEv_streamer_playing (ap : AudioPlayer) (e : PlayerEvent)
    (h : ap.streamer = none → ap.playing = false) :
    (stepEv ap e).streamer = none → (stepEv ap e).playing = false := by
  cases e with
  | load t path env => intro _; exact loadTrack_playing_eq ap t path env
  | play t =>
    simp only [stepEv, AudioPlayer.Play]
    split_ifs with h1 h2 <;> simp_all [Option.isNone_iff_eq_none]
  | pause t =>
    have := pause_fields ap t
    intro hs; simp only [stepEv] at hs ⊢; rw [this.1]; exact h (this.2.1 ▸ hs)
  | resume t =>
    have := resume_fields ap t
    intro hs; simp only [stepEv] at hs ⊢; rw [this.1]; exact h (this.2.1 ▸ hs)
  | stop t => intro _; exact stop_playing_eq ap t
  | seek pos =>
    have := seek_fields ap pos
    intro hs
    simp only [stepEv] at hs ⊢
    rw [this.1]
    exact h (Option.isNone_iff_eq_none.mp ((this.2.1).mp (Option.isNone_iff_eq_none.mpr hs)))
  | queryEnded t =>
    have := hasEnded_state_fields ap t
    intro hs; simp only [stepEv] at hs ⊢; rw [this.1.1]; exact h (this.1.2.1 ▸ hs)
  | complete =>
    have := completeStream_fields ap
    intro hs; simp only [stepEv] at hs ⊢; rw [this.1]; exact h (this.2.1 ▸ hs)
  | close t =>
    intro _
    show (AudioPlayer.Close ap t).playing = false
    simp only [AudioPlayer.Close]
    rw [stop_playing_eq]

theorem runEvents_streamer_playing (evs : List PlayerEvent) :
    ∀ ap : AudioPlayer, (ap.streamer = none → ap.playing = false) →
      ((runEvents ap evs).streamer = none → (runEvents ap evs).playing = false) := by
  induction evs with
  | nil => intro ap h; exact h
  | cons e rest ih =>
    intro ap h
    exact ih (stepEv ap e) (stepEv_streamer_playing ap e h)

/-- Every reachable player with no loaded streamer has its `playing` flag
down (it is `Stopped`). -/
theorem reachable_no_streamer_stopped (ap : AudioPlayer) (h : Reachable ap)
    (hs : ap.streamer = none) : ap.playing = false := by
  obtain ⟨evs, rfl⟩ := h
  exact runEvents_streamer_playing evs newAudioPlayer (fun _ => rfl) hs

/-- C4.  `Play()` with no loaded track returns the `NoTrackLoaded` error
(`"no track loaded"`), leaves every field of the player unchanged, and the
controller is in the `Stopped` state. -/
theorem play_noTrackLoaded (ap : AudioPlayer) (t : Int) (h : Reachable ap)
    (hs : ap.streamer = none) :
    ap.Play t = (some "no track loaded", ap) ∧ ap.sessionState = .Stopped := by
  constructor
  · simp [AudioPlayer.Play, hs]
  · simp [AudioPlayer.sessionState, reachable_no_streamer_stopped ap h hs]

theorem play_noTrackLoaded_witness :
    newAudioPlayer.Play 7 = (some "no track loaded", newAudioPlayer) ∧
    newAudioPlayer.sessionState = .Stopped :=
  play_noTrackLoaded newAudioPlayer 7 ⟨[], rfl⟩ rfl

/-- C10.  `Seek(pos)` with no loaded track (nil streamer, e.g. after `Stop`
or before any `Load`) returns the `"no track loaded"` error and leaves the
whole player — in particular `currentPos` — unchanged, for every `pos`. -/
theorem seek_noTrack (ap : AudioPlayer) (pos : Int) (hs : ap.streamer = none) :
    ap.Seek pos = (some "no track loaded", ap) := by
  simp [AudioPlayer.Seek, hs]

theorem seek_noTrack_witness :
    (newAudioPlayer.Stop 3).Seek (-42) = (some "no track loaded", newAudioPlayer.Stop 3) :=
  seek_noTrack (newAudioPlayer.Stop 3) (-42) (stop_streamer_eq newAudioPlayer 3)

/-- C5 (code bug).  Calling `Pause()` again while already `Paused` is not a
no-op: the body re-runs and adds `now - startTime` to `currentPos` a second
time, over-counting the position (here: pause at 3 s banks 3 s; a second
`Pause` at 5 s banks 5 more seconds, leaving `currentPos = 8 s` although
only 3 s of audio ever played). -/
theorem pause_double_add_bug :
    (playingAt0.Pause 3000000000).sessionState = .Paused ∧
    (playingAt0.Pause 3000000000).currentPos = 3000000000 ∧
    ((playingAt0.Pause 3000000000).Pause 5000000000).currentPos = 8000000000 ∧
    ((playingAt0.Pause 3000000000).Pause 5000000000).currentPos
      ≠ (playingAt0.Pause 3000000000).currentPos := by
  decide

/-- C2 (counterexample).  `Seek` does not clamp an out-of-range position:
on the loaded 10-second track, `Seek(10 s + 1 ns)` succeeds and stores the
unclamped `currentPos = 10000000001`, and `Seek(11 s)` — whose frame index
exceeds the stream length — returns an error and leaves `currentPos`
untouched; the claimed behaviour (clamp to `duration` and store the bound,
never erroring) happens in neither case. -/
theorem seek_does_not_clamp :
    playingAt0.duration = 10000000000 ∧
    (playingAt0.Seek 10000000001).1 = none ∧
    (playingAt0.Seek 10000000001).2.currentPos = 10000000001 ∧
    (playingAt0.Seek 11000000000).1 = some "failed to seek" ∧
    (playingAt0.Seek 11000000000).2.currentPos = playingAt0.currentPos := by
  decide

/-- C2 (amended).  What `Seek(pos)` actually does on a loaded track: it
converts `pos` to the frame index `N(pos) = pos·sampleRate/1e9`; when that
index lies within `[0, Len()]` the stream is repositioned there,
`currentPos := pos` (unclamped, and `startTime` is not re-anchored), and no
error is returned; when it lies outside, the stream rejects it and `Seek`
returns the error with the player unchanged. -/
theorem seek_characterization (ap : AudioPlayer) (st : BeepStreamer) (pos : Int)
    (h : ap.streamer = some st) :
    (0 ≤ beepN ap.sampleRate pos ∧ beepN ap.sampleRate pos ≤ st.len →
      ap.Seek pos =
        (none,
          { ap with
              streamer := some { st with pos := beepN ap.sampleRate pos }
              currentPos := pos })) ∧
    (beepN ap.sampleRate pos < 0 ∨ st.len < beepN ap.sampleRate pos →
      ap.Seek pos = (some "failed to seek", ap)) := by
  constructor
  · intro ⟨h1, h2⟩
    simp [AudioPlayer.Seek, h]
    omega
  · intro hout
    simp [AudioPlayer.Seek, h]
    omega

theorem seek_characterization_witness :
    playingAt0.streamer = some { len := 441000, pos := 0 } ∧
    0 ≤ beepN playingAt0.sampleRate 1000000000 ∧
    beepN playingAt0.sampleRate 1000000000 ≤ 441000 ∧
    playingAt0.Seek 1000000000 =
      (none,
        { playingAt0 with
            streamer := some { len := 441000, pos := beepN playingAt0.sampleRate 1000000000 }
            currentPos := 1000000000 }) :=
  ⟨by decide, by decide, by decide,
    (seek_characterization playingAt0 { len := 441000, pos := 0 } 1000000000 (by decide)).1
      ⟨by decide, by decide⟩⟩

/-- C7 (counterexample).  On tag-read failure `LoadTrack` succeeds and sets
the placeholder artist/album, but the title falls back to
`filepath.Base(filePath)` — the file NAME WITH its extension — not the
extension-stripped name the spec describes: loading `"music/song.mp3"`
with unreadable tags yields title `"song.mp3"`, not `"song"`. -/
theorem load_title_keeps_extension :
    (newAudioPlayer.LoadTrack 0 "music/song.mp3" env44NoTags).1 = none ∧
    (newAudioPlayer.LoadTrack 0 "music/song.mp3" env44NoTags).2.title = "song.mp3" ∧
    specTitleFallback "music/song.mp3" = "song" ∧
    (newAudioPlayer.LoadTrack 0 "music/song.mp3" env44NoTags).2.title
      ≠ specTitleFallback "music/song.mp3" := by
  decide

/-- C7 (amended).  For every file whose tags are absent or unreadable (and
which opens, rewinds, decodes and initialises fine), `LoadTrack` succeeds —
tag failure is not an error — and sets the fallbacks: title
`filepath.Base(filePath)` (extension included), artist `"Unknown Artist"`,
album `"Unknown Album"`. -/
theorem load_tag_fallback (ap : AudioPlayer) (t : Int) (path : String) (env : LoadEnv)
    (htags : env.tags = none) (hopen : env.openOk = true)
    (hseek : env.fileSeekOk = true)
    (hext : supportedExt (goToLower (goFilepathExt path)) = true)
    (hdec : env.decodeOk = true) (hinit : env.initOk = true) :
    (ap.LoadTrack t path env).1 = none ∧
    (ap.LoadTrack t path env).2.title = goFilepathBase path ∧
    (ap.LoadTrack t path env).2.artist = "Unknown Artist" ∧
    (ap.LoadTrack t path env).2.album = "Unknown Album" := by
  simp only [AudioPlayer.LoadTrack, htags, hopen, hseek, hext, hdec, hinit]
  split_ifs <;> simp_all

theorem load_tag_fallback_witness :
    (newAudioPlayer.LoadTrack 0 "music/song.mp3" env44NoTags).1 = none ∧
    (newAudioPlayer.LoadTrack 0 "music/song.mp3" env44NoTags).2.title
      = goFilepathBase "music/song.mp3" ∧
    (newAudioPlayer.LoadTrack 0 "music/song.mp3" env44NoTags).2.artist = "Unknown Artist" ∧
    (newAudioPlayer.LoadTrack 0 "music/song.mp3" env44NoTags).2.album = "Unknown Album" :=
  load_tag_fallback newAudioPlayer 0 "music/song.mp3" env44NoTags
    rfl rfl rfl (by decide) rfl rfl

/-- C8 (counterexample).  The device is NOT initialised at most once per
process lifetime: `Close` resets the `speakerInitialized` flag, so the
sequence `Load(44.1 kHz track); Close(); Load(48 kHz track)` calls
`speaker.Init` twice, with two different configurations. -/
theorem speaker_reinit_after_close :
    (runEvents newAudioPlayer
        [.load 0 "a.mp3" env44, .close 1, .load 2 "b.wav" env48]).initCalls
      = [(44100, 4410), (48000, 4800)] ∧
    ((44100, 4410) : Int × Int) ≠ (48000, 4800) := by
  decide

/-- C8 (amended).  As long as `Close` is never called, the device is
initialised at most once: across any sequence of `Load`, `Play`, `Pause`,
`Resume`, `Stop`, `Seek`, `HasEnded` and render-completion events with no
`Close`, at most one `speaker.Init` call is made (with the configuration
chosen by the first successfully decoded track); only `Close` resets the
flag and lets a later `Load` initialise the device again. -/
theorem speaker_init_once (evs : List PlayerEvent)
    (hnc : ∀ e ∈ evs, e.isClose = false) :
    ((runEvents newAudioPlayer evs).initCalls).length ≤ 1 := by
  suffices h : ∀ (l : List PlayerEvent) (ap : AudioPlayer),
      (∀ e ∈ l, e.isClose = false) →
      ((ap.speakerInitialized = false → ap.initCalls = []) ∧ ap.initCalls.length ≤ 1) →
      (((runEvents ap l).speakerInitialized = false → (runEvents ap l).initCalls = []) ∧
        ((runEvents ap l).initCalls).length ≤ 1) by
    exact (h evs newAudioPlayer hnc (by constructor <;> simp [newAudioPlayer])).2
  intro l
  induction l with
  | nil => intro ap _ hinv; exact hinv
  | cons e rest ih =>
    intro ap hl hinv
    refine ih (stepEv ap e) (fun x hx => hl x (List.mem_cons_of_mem e hx)) ?_
    have he := hl e (List.mem_cons_self e rest)
    cases e with
    | load t path env =>
      simp only [stepEv]
      rcases loadTrack_initCalls ap t path env with ⟨h1, h2⟩ | ⟨h0, h1, h2⟩
      · exact ⟨fun hf => by rw [h2]; exact hinv.1 (h1 ▸ hf), h2 ▸ hinv.2⟩
      · constructor
        · intro hf; rw [h1] at hf; cases hf
        · rw [h2, hinv.1 h0]; simp
    | play t =>
      rcases play_fields ap t with h1 | h1
      · simp only [stepEv]; rw [h1]; exact hinv
      · simp only [stepEv]; rw [h1.2.2.2.2.1, h1.2.2.2.2.2]; exact hinv
    | pause t =>
      have h1 := pause_fields ap t
      simp only [stepEv]; rw [h1.2.2.2.2.1, h1.2.2.2.2.2]; exact hinv
    | resume t =>
      have h1 := resume_fields ap t
      simp only [stepEv]; rw [h1.2.2.2.2.1, h1.2.2.2.2.2]; exact hinv
    | stop t =>
      have h1 := stop_speaker_eq ap t
      simp only [stepEv]; rw [h1.1, h1.2]; exact hinv
    | seek pos =>
      have h1 := seek_fields ap pos
      simp only [stepEv]; rw [h1.2.2.2.2.1, h1.2.2.2.2.2]; exact hinv
    | queryEnded t =>
      have h1 := hasEnded_state_fields ap t
      simp only [stepEv]; rw [h1.1.2.2.2.1, h1.1.2.2.2.2]; exact hinv
    | complete =>
      have h1 := completeStream_fields ap
      simp only [stepEv]; rw [h1.2.2.2.2.1, h1.2.2.2.2.2]; exact hinv
    | close t => cases he

theorem speaker_init_once_witness :
    ((runEvents newAudioPlayer
        [PlayerEvent.load 0 "a.mp3" env44, PlayerEvent.stop 1,
          PlayerEvent.load 2 "b.wav" env48]).initCalls).length ≤ 1 :=
  speaker_init_once
    [PlayerEvent.load 0 "a.mp3" env44, PlayerEvent.stop 1, PlayerEvent.load 2 "b.wav" env48]
    (by decide)

/-! ## HasEnded: characterization and latching -/

theorem hasEnded_true_iff (ap : AudioPlayer) (t : Int) :
    (ap.HasEnded t).1 = true ↔
      (ap.playing = true ∧ ap.duration ≠ 0 ∧
        ((∃ cs, ap.completionStream = some cs ∧ cs.completed = true) ∨
          ap.GetPosition t ≥ ap.duration ∨ ap.hasEnded = true)) := by
  simp only [AudioPlayer.HasEnded]
  rcases hcs : ap.completionStream with _ | cs <;>
    split_ifs with hguard <;> simp_all <;>
    (intro hp hd; rcases hguard with hcase | hcase <;> simp_all)

theorem hasEnded_true_post (ap : AudioPlayer) (t : Int) (h : (ap.HasEnded t).1 = true) :
    (ap.HasEnded t).2.hasEnded = true ∧ (ap.HasEnded t).2.playing = true ∧
      (ap.HasEnded t).2.duration ≠ 0 := by
  simp only [AudioPlayer.HasEnded] at h ⊢
  split_ifs at h ⊢ <;> simp_all

theorem stepEv_keeps_ended (ap : AudioPlayer) (e : PlayerEvent)
    (he : e.clearsPlayback = false)
    (h : ap.hasEnded = true ∧ ap.playing = true ∧ ap.duration ≠ 0) :
    (stepEv ap e).hasEnded = true ∧ (stepEv ap e).playing = true ∧
      (stepEv ap e).duration ≠ 0 := by
  cases e with
  | load t path env => cases he
  | stop t => cases he
  | close t => cases he
  | play t =>
    simp only [stepEv, AudioPlayer.Play]
    split_ifs with h1 h2 <;> simp_all
  | pause t =>
    have h1 := pause_fields ap t
    simp only [stepEv]
    rw [h1.2.2.2.1, h1.1, h1.2.2.1]
    exact h
  | resume t =>
    have h1 := resume_fields ap t
    simp only [stepEv]
    rw [h1.2.2.2.1, h1.1, h1.2.2.1]
    exact h
  | seek pos =>
    have h1 := seek_fields ap pos
    simp only [stepEv]
    rw [h1.2.2.2.1, h1.1, h1.2.2.1]
    exact h
  | queryEnded t =>
    have h1 := hasEnded_state_fields ap t
    simp only [stepEv]
    refine ⟨?_, h1.1.1 ▸ h.2.1, h1.1.2.2.1 ▸ h.2.2⟩
    rcases h1.2 with h2 | h2
    · rw [h2]; exact h.1
    · exact h2
  | complete =>
    have h1 := completeStream_fields ap
    simp only [stepEv]
    rw [h1.2.2.2.1, h1.1, h1.2.2.1]
    exact h

theorem runEvents_keeps_ended (evs : List PlayerEvent) :
    ∀ ap : AudioPlayer, (∀ e ∈ evs, e.clearsPlayback = false) →
      (ap.hasEnded = true ∧ ap.playing = true ∧ ap.duration ≠ 0) →
      ((runEvents ap evs).hasEnded = true ∧ (runEvents ap evs).playing = true ∧
        (runEvents ap evs).duration ≠ 0) := by
  induction evs with
  | nil => intro ap _ h; exact h
  | cons e rest ih =>
    intro ap hl h
    exact ih (stepEv ap e)
      (fun x hx => hl x (List.mem_cons_of_mem e hx))
      (stepEv_keeps_ended ap e (hl e (List.mem_cons_self e rest)) h)

/-- C3 (amended).  `HasEnded()` behaves as follows.  (1) It returns true
exactly when the `playing` flag is up, the duration is non-zero, and either
the completion wrapper has observed end-of-stream, or `GetPosition() ≥
duration` (whether actively playing or paused), or the `hasEnded` flag is
already set.  (2) Whenever it returns true it latches the `hasEnded` flag.
(3) It returns false on every reachable player with no loaded track.
(4) Once a query returns true, every later query returns true across any
events that do not tear playback down (`Pause`, `Resume`, `Seek`, `Play`,
further queries, render completion) — the latch is cleared only by `Stop`,
including the `Stop` at the start of `Load` (and `Play` can only restart
playback after such a `Stop`). -/
theorem hasEnded_spec :
    (∀ (ap : AudioPlayer) (t : Int),
      (ap.HasEnded t).1 = true ↔
        (ap.playing = true ∧ ap.duration ≠ 0 ∧
          ((∃ cs, ap.completionStream = some cs ∧ cs.completed = true) ∨
            ap.GetPosition t ≥ ap.duration ∨ ap.hasEnded = true))) ∧
    (∀ (ap : AudioPlayer) (t : Int),
      (ap.HasEnded t).1 = true → (ap.HasEnded t).2.hasEnded = true) ∧
    (∀ (ap : AudioPlayer) (t : Int),
      Reachable ap → ap.streamer = none → (ap.HasEnded t).1 = false) ∧
    (∀ (ap : AudioPlayer) (t : Int),
      (ap.HasEnded t).1 = true →
        ∀ (evs : List PlayerEvent) (t' : Int),
          (∀ e ∈ evs, e.clearsPlayback = false) →
          ((runEvents (ap.HasEnded t).2 evs).HasEnded t').1 = true) := by
  refine ⟨hasEnded_true_iff, fun ap t h => (hasEnded_true_post ap t h).1, ?_, ?_⟩
  · intro ap t hr hs
    have hp : ap.playing = false := reachable_no_streamer_stopped ap hr hs
    rcases hq : (ap.HasEnded t).1 with _ | _
    · rfl
    · have := (hasEnded_true_iff ap t).mp hq
      rw [hp] at this
      cases this.1
  · intro ap t h evs t' hnc
    have hpost := hasEnded_true_post ap t h
    have hrun := runEvents_keeps_ended evs (ap.HasEnded t).2 hnc
      ⟨hpost.1, hpost.2.1, hpost.2.2⟩
    exact (hasEnded_true_iff _ t').mpr ⟨hrun.2.1, hrun.2.2, Or.inr (Or.inr hrun.1)⟩

theorem hasEnded_spec_witness : (newAudioPlayer.HasEnded 0).1 = false :=
  hasEnded_spec.2.2.1 newAudioPlayer 0 ⟨[], rfl⟩ rfl

/-- C3 (counterexample).  "Once true it remains true until the next `Load`
or `Play`" fails: after the completion wrapper observes end-of-stream a
`HasEnded()` query returns true, but a bare `Stop()` — with no `Load` and
no `Play` — makes the next query return false. -/
theorem hasEnded_reset_by_stop :
    ((runEvents newAudioPlayer
        [.load 0 "music/song.mp3" env44, .play 0, .complete]).HasEnded 1).1 = true ∧
    ((((runEvents newAudioPlayer
        [.load 0 "music/song.mp3" env44, .play 0, .complete]).HasEnded 1).2.Stop
          2).HasEnded 3).1 = false := by
  decide

/-! ## GetPosition monotonicity across Pause/Resume -/

theorem getPosition_ge_phi (ap : AudioPlayer) (t : Int) (hp : ap.playing = true) :
    phiPos ap t ≤ ap.GetPosition t ∧
      (ap.IsPaused = false → ap.GetPosition t = phiPos ap t) := by
  simp only [phiPos, AudioPlayer.GetPosition, hp]
  split_ifs <;> simp_all
  omega

theorem phi_time_mono (ap : AudioPlayer) {t t' : Int} (h : t ≤ t') :
    phiPos ap t ≤ phiPos ap t' := by
  simp only [phiPos]
  split_ifs <;> omega

theorem applyPR_playing (ap : AudioPlayer) (e : PREvent) :
    (applyPR ap e).playing = ap.playing := by
  cases e with
  | pause t => exact (pause_fields ap t).1
  | resume t => exact (resume_fields ap t).1

theorem phi_pause_step (ap : AudioPlayer) (t : Int) (hp : ap.playing = true)
    (hv : ap.IsPaused = false) :
    phiPos ap t ≤ phiPos (ap.Pause t) t := by
  simp only [AudioPlayer.Pause]
  rcases hc : ap.ctrl with _ | c
  · simp [hc]
  · simp only [hc, Option.isSome_some, hp, Bool.and_self, if_true]
    simp_all [phiPos, AudioPlayer.IsPaused, hc]

theorem phi_resume_step (ap : AudioPlayer) (t : Int) (hp : ap.playing = true)
    (hv : ap.IsPaused = true) :
    phiPos ap t ≤ phiPos (ap.Resume t) t := by
  simp only [AudioPlayer.Resume]
  rcases hc : ap.ctrl with _ | c
  · simp [AudioPlayer.IsPaused, hc] at hv
  · simp only [hc, Option.isSome_some, hp, Bool.and_self, if_true]
    simp_all [phiPos, AudioPlayer.IsPaused, hc]

theorem phi_runPR (evs : List PREvent) :
    ∀ (ap : AudioPlayer) (t1 t2 : Int), ap.playing = true →
      timesChain t1 evs t2 = true → validPR ap evs = true →
      phiPos ap t1 ≤ phiPos (runPR ap evs) t2 := by
  induction evs with
  | nil =>
    intro ap t1 t2 _ hch _
    simp only [timesChain, decide_eq_true_eq] at hch
    exact phi_time_mono ap hch
  | cons e rest ih =>
    intro ap t1 t2 hp hch hv
    simp only [timesChain, Bool.and_eq_true, decide_eq_true_eq] at hch
    simp only [validPR, Bool.and_eq_true] at hv
    have step : phiPos ap e.time ≤ phiPos (applyPR ap e) e.time := by
      cases e with
      | pause t => exact phi_pause_step ap t hp (by simpa using hv.1)
      | resume t => exact phi_resume_step ap t hp (by simpa using hv.1)
    calc phiPos ap t1 ≤ phiPos ap e.time := phi_time_mono ap hch.1
      _ ≤ phiPos (applyPR ap e) e.time := step
      _ ≤ phiPos (runPR (applyPR ap e) rest) t2 :=
          ih (applyPR ap e) e.time t2 (by rw [applyPR_playing]; exact hp) hch.2 hv.2

theorem runPR_playing (evs : List PREvent) :
    ∀ ap : AudioPlayer, (runPR ap evs).playing = ap.playing := by
  induction evs with
  | nil => intro ap; rfl
  | cons e rest ih =>
    intro ap
    show (runPR (applyPR ap e) rest).playing = ap.playing
    rw [ih (applyPR ap e), applyPR_playing]

/-- C6 (amended).  While the `playing` flag stays up, `GetPosition()` is
monotonically non-decreasing between two reads taken while not paused, with
no intervening `Seek`, across any properly alternating interleaving of
`Pause`/`Resume` calls (each `Pause` issued while not paused, each `Resume`
while paused) at non-decreasing instants.  Without those provisos the code
is not monotone: a `Resume` issued while already actively playing
re-anchors `startTime` and drops the unbanked elapsed time, and a read
taken while paused can exceed the clamped value of a later read. -/
theorem getPosition_mono (evs : List PREvent) (ap : AudioPlayer) (t1 t2 : Int)
    (hp : ap.playing = true) (h1 : ap.IsPaused = false)
    (hch : timesChain t1 evs t2 = true) (hv : validPR ap evs = true)
    (h2 : (runPR ap evs).IsPaused = false) :
    ap.GetPosition t1 ≤ (runPR ap evs).GetPosition t2 := by
  have e1 := (getPosition_ge_phi ap t1 hp).2 h1
  have hp2 : (runPR ap evs).playing = true := by rw [runPR_playing]; exact hp
  have e2 := (getPosition_ge_phi (runPR ap evs) t2 hp2).2 h2
  rw [e1, e2]
  exact phi_runPR evs ap t1 t2 hp hch hv

theorem getPosition_mono_witness :
    playingAt0.playing = true ∧ playingAt0.IsPaused = false ∧
    timesChain 0 [PREvent.pause 1000000000, PREvent.resume 2000000000] 3000000000 = true ∧
    validPR playingAt0 [PREvent.pause 1000000000, PREvent.resume 2000000000] = true ∧
    (runPR playingAt0 [PREvent.pause 1000000000, PREvent.resume 2000000000]).IsPaused
      = false ∧
    playingAt0.GetPosition 0
      ≤ (runPR playingAt0 [PREvent.pause 1000000000, PREvent.resume 2000000000]).GetPosition
          3000000000 :=
  ⟨by decide, by decide, by decide, by decide, by decide,
    getPosition_mono [PREvent.pause 1000000000, PREvent.resume 2000000000] playingAt0
      0 3000000000 (by decide) (by decide) (by decide) (by decide) (by decide)⟩

/-- C6 (counterexample).  As stated the claim fails even for two reads both
taken while actively `Playing` with only a `Resume` call in between and no
`Seek`: on the playing 10-second track, the read at 5 s returns 5 s, a
`Resume()` issued at 5 s (the code accepts it while not paused and
re-anchors `startTime`), and the read immediately after — at the same
instant, so not earlier — returns 0: the position estimate jumped
backwards by five seconds. -/
theorem getPosition_not_mono :
    playingAt0.sessionState = .Playing ∧
    playingAt0.GetPosition 5000000000 = 5000000000 ∧
    (playingAt0.Resume 5000000000).sessionState = .Playing ∧
    (playingAt0.Resume 5000000000).GetPosition 5000000000 = 0 ∧
    (playingAt0.Resume 5000000000).GetPosition 5000000000
      < playingAt0.GetPosition 5000000000 := by
  decide

/-! ## Shuffle is a permutation -/

theorem cons_set_perm : ∀ (l : List α) (m : Nat) (hm : m < l.length) (a : α),
    List.Perm (l.get ⟨m, hm⟩ :: l.set m a) (a :: l) := by
  intro l
  induction l with
  | nil => intro m hm a; cases hm
  | cons b t ih =>
    intro m hm a
    cases m with
    | zero => simpa using List.Perm.swap a b t
    | succ k =>
      have hk : k < t.length := by simpa using hm
      simp only [List.get_eq_getElem, List.getElem_cons_succ, List.set_cons_succ]
      have step : List.Perm (t.get ⟨k, hk⟩ :: t.set k a) (a :: t) := ih k hk a
      simp only [List.get_eq_getElem] at step
      exact ((List.Perm.swap b t[k] (t.set k a)).trans (step.cons b)).trans
        (List.Perm.swap a b t)

theorem set_set_perm : ∀ (l : List α) (i j : Nat) (hi : i < l.length) (hj : j < l.length),
    List.Perm ((l.set i (l.get ⟨j, hj⟩)).set j (l.get ⟨i, hi⟩)) l := by
  intro l
  induction l with
  | nil => intro i j hi _; cases hi
  | cons b t ih =>
    intro i j hi hj
    simp only [List.get_eq_getElem]
    cases i with
    | zero =>
      cases j with
      | zero => simp
      | succ m =>
        have hm : m < t.length := by simpa using hj
        simp only [List.getElem_cons_succ, List.getElem_cons_zero, List.set_cons_zero,
          List.set_cons_succ]
        have h := cons_set_perm t m hm b
        simpa using h
    | succ k =>
      cases j with
      | zero =>
        have hk : k < t.length := by simpa using hi
        simp only [List.getElem_cons_succ, List.getElem_cons_zero, List.set_cons_succ,
          List.set_cons_zero]
        have h := cons_set_perm t k hk b
        simpa using h
      | succ m =>
        have hk : k < t.length := by simpa using hi
        have hm : m < t.length := by simpa using hj
        simp only [List.getElem_cons_succ, List.set_cons_succ]
        have h := ih k m hk hm
        simp only [List.get_eq_getElem] at h
        exact h.cons b

theorem listSwap_perm (l : List α) (i j : Nat) : List.Perm (listSwap l i j) l := by
  unfold listSwap
  rcases hi : l[i]? with _ | a
  · exact List.Perm.refl l
  · rcases hj : l[j]? with _ | b
    · exact List.Perm.refl l
    · obtain ⟨hilt, hia⟩ := List.getElem?_eq_some.mp hi
      obtain ⟨hjlt, hjb⟩ := List.getElem?_eq_some.mp hj
      rw [← hia, ← hjb]
      have h := set_set_perm l i j hilt hjlt
      simpa using h

theorem shuffleAux_perm (js : Nat → Nat) :
    ∀ (n : Nat) (l : List α), List.Perm (shuffleAux js l n) l := by
  intro n
  induction n with
  | zero => intro l; exact List.Perm.refl l
  | succ i ih =>
    intro l
    exact (ih (listSwap l (i + 1) (js (i + 1) % (i + 2)))).trans
      (listSwap_perm l (i + 1) (js (i + 1) % (i + 2)))

/-- C9.  For every playlist and every sequence of random draws,
`shufflePlaylist` produces a permutation of its input: the same paths with
the same multiplicities, and the same length. -/
theorem shufflePlaylist_perm (playlist : List String) (js : Nat → Nat) :
    List.Perm (shufflePlaylist playlist js) playlist ∧
    (shufflePlaylist playlist js).length = playlist.length ∧
    ∀ path : String, (shufflePlaylist playlist js).count path = playlist.count path := by
  have h : List.Perm (shufflePlaylist playlist js) playlist :=
    shuffleAux_perm js (playlist.length - 1) playlist
  exact ⟨h, h.length_eq, fun path => h.count_eq path⟩
